import Mathlib

/-!
Verification of the Alberta multi-sensor patch-extraction pipeline
(`extract_patches_alldatasets.py` and the per-sensor band-stacking scripts).

Rasters are modelled as total functions `ℤ → ℤ → ℤ` (row, column ↦ pixel
value) together with explicit `rows`/`cols` dimensions; every function of
the source that writes a raster is embedded as the function computing the
value of one output pixel.  Python's floats `0.7`, `0.15`, `0.8` appear in
the source only in expressions whose value is an integer threshold or a
floored product; they are embedded as the rationals they denote.
-/

/-! ## Strict majority (homogeneity) filter
    Source: `extract_patches_alldatasets.py`, lines 118-238. -/

/-- Constant `kernel_size = 9` fixed inside `apply_strict_majority_filter_numba` (line 123). -/
def kernel_size : ℤ := 9

/-- Constant `half_kernel = kernel_size // 2` (line 124). -/
def half_kernel : ℤ := kernel_size / 2

/-- Threshold `min_required = math.ceil(kernel_size**2 * min_homogeneity)` (line 125). -/
def min_required (minHomogeneity : ℚ) : ℤ := ⌈(kernel_size : ℚ) ^ 2 * minHomogeneity⌉

/-- The inner double loop of lines 141-145: number of cells `(y, x)` with
`y0 ≤ y < y1`, `x0 ≤ x < x1`, `a y x = v` and `a y x ≠ -99`. -/
def countSame (a : ℤ → ℤ → ℤ) (v y0 y1 x0 x1 : ℤ) : ℕ :=
  (((Finset.Ico y0 y1) ×ˢ (Finset.Ico x0 x1)).filter
    (fun p => a p.1 p.2 = v ∧ a p.1 p.2 ≠ -99)).card

/-- The count computed for the centre pixel `(i, j)` over its edge-clipped
window (lines 134-145): bounds `y_start = max 0 (i - half_kernel)`,
`y_end = min rows (i + half_kernel + 1)`, and likewise for columns. -/
def windowCount (a : ℤ → ℤ → ℤ) (rows cols i j : ℤ) : ℕ :=
  countSame a (a i j)
    (max 0 (i - half_kernel)) (min rows (i + half_kernel + 1))
    (max 0 (j - half_kernel)) (min cols (j + half_kernel + 1))

/-- Pixel `(i, j)` of the output of `apply_strict_majority_filter_numba`
(lines 118-150): background stays `-99`; otherwise the centre label is kept
precisely when the window count reaches `min_required`. -/
def apply_strict_majority_filter_numba
    (a : ℤ → ℤ → ℤ) (rows cols : ℤ) (minHomogeneity : ℚ) (i j : ℤ) : ℤ :=
  if a i j = -99 then -99
  else if min_required minHomogeneity ≤ (windowCount a rows cols i j : ℤ) then a i j
  else -99

/-- Overlap `overlap = kernel_size // 2` in `apply_strict_majority_filter_batched`
(line 174). -/
def filter_overlap : ℤ := kernel_size / 2

/-- First row of the overlap-padded read region of the batch that owns output
row `pos`: `y_start_read = max 0 (batch_y * batch_size - overlap)` with
`batch_y = pos / B` (lines 189, 195). -/
def batch_read_start (pos B : ℤ) : ℤ := max 0 (pos / B * B - filter_overlap)

/-- One-past-the-last row of that read region:
`y_end_read = min rows (y_end + overlap)` with
`y_end = min ((batch_y + 1) * batch_size) rows` (lines 190, 196). -/
def batch_read_end (pos B limit : ℤ) : ℤ :=
  min limit (min ((pos / B + 1) * B) limit + filter_overlap)

/-- Pixel `(i, j)` of the output raster of
`apply_strict_majority_filter_batched` (lines 152-238).  Each output pixel is
written exactly once, by the batch `(i / B, j / B)` whose core contains it;
that batch reads the overlap-padded region, filters it with
`apply_strict_majority_filter_numba`, and writes the core back at its global
position (lines 201-229), so the value at `(i, j)` is the filtered value of
the read region at the corresponding local coordinates. -/
def apply_strict_majority_filter_batched
    (a : ℤ → ℤ → ℤ) (rows cols : ℤ) (minHomogeneity : ℚ) (B i j : ℤ) : ℤ :=
  apply_strict_majority_filter_numba
    (fun r c => a (batch_read_start i B + r) (batch_read_start j B + c))
    (batch_read_end i B rows - batch_read_start i B)
    (batch_read_end j B cols - batch_read_start j B)
    minHomogeneity
    (i - batch_read_start i B) (j - batch_read_start j B)

/-! ### Helper lemmas for the filter -/

lemma countSame_shift (a : ℤ → ℤ → ℤ) (v s t y0 y1 x0 x1 : ℤ) :
    countSame (fun r c => a (s + r) (t + c)) v y0 y1 x0 x1
      = countSame a v (s + y0) (s + y1) (t + x0) (t + x1) := by
  unfold countSame
  apply Finset.card_nbij' (fun p => (s + p.1, t + p.2)) (fun p => (p.1 - s, p.2 - t))
  · intro p hp
    simp only [Finset.mem_filter, Finset.mem_product, Finset.mem_Ico] at hp ⊢
    refine ⟨⟨⟨?_, ?_⟩, ?_, ?_⟩, hp.2.1, hp.2.2⟩ <;> omega
  · intro p hp
    simp only [Finset.mem_filter, Finset.mem_product, Finset.mem_Ico] at hp ⊢
    have h1 : s + (p.1 - s) = p.1 := by ring
    have h2 : t + (p.2 - t) = p.2 := by ring
    rw [h1, h2]
    refine ⟨⟨⟨?_, ?_⟩, ?_, ?_⟩, hp.2.1, hp.2.2⟩ <;> omega
  · intro p _
    obtain ⟨p1, p2⟩ := p
    simp only [Prod.mk.injEq]
    constructor <;> ring
  · intro p _
    obtain ⟨p1, p2⟩ := p
    simp only [Prod.mk.injEq]
    constructor <;> ring

lemma windowCount_shift (a : ℤ → ℤ → ℤ) (rows cols brows bcols s t i j : ℤ)
    (hs0 : 0 ≤ s) (hsle : s ≤ max 0 (i - half_kernel))
    (hsr : min rows (i + half_kernel + 1) ≤ s + brows) (hbr : s + brows ≤ rows)
    (ht0 : 0 ≤ t) (htle : t ≤ max 0 (j - half_kernel))
    (htc : min cols (j + half_kernel + 1) ≤ t + bcols) (hbc : t + bcols ≤ cols) :
    windowCount (fun r c => a (s + r) (t + c)) brows bcols (i - s) (j - t)
      = windowCount a rows cols i j := by
  have hk : half_kernel = 4 := by decide
  rw [hk] at hsle hsr htle htc
  unfold windowCount
  have hv : (fun r c => a (s + r) (t + c)) (i - s) (j - t) = a i j := by
    show a (s + (i - s)) (t + (j - t)) = a i j
    rw [show s + (i - s) = i by ring, show t + (j - t) = j by ring]
  rw [hv, countSame_shift, hk]
  have e1 : s + max 0 (i - s - 4) = max 0 (i - 4) := by omega
  have e2 : s + min brows (i - s + 4 + 1) = min rows (i + 4 + 1) := by omega
  have e3 : t + max 0 (j - t - 4) = max 0 (j - 4) := by omega
  have e4 : t + min bcols (j - t + 4 + 1) = min cols (j + 4 + 1) := by omega
  rw [e1, e2, e3, e4]

lemma batched_eq_numba (a : ℤ → ℤ → ℤ) (rows cols : ℤ) (mh : ℚ) (B i j : ℤ)
    (hB : 0 < B) (hi0 : 0 ≤ i) (hir : i < rows) (hj0 : 0 ≤ j) (hjc : j < cols) :
    apply_strict_majority_filter_batched a rows cols mh B i j
      = apply_strict_majority_filter_numba a rows cols mh i j := by
  have hk : half_kernel = 4 := by decide
  have ho : filter_overlap = 4 := by decide
  have hy1 : i / B * B ≤ i := by
    have h1 := Int.ediv_add_emod i B
    have h2 : 0 ≤ i % B := Int.emod_nonneg i (by omega)
    have h3 : B * (i / B) = i / B * B := mul_comm _ _
    linarith
  have hy2 : i < i / B * B + B := by
    have h1 := Int.ediv_add_emod i B
    have h2 : i % B < B := Int.emod_lt_of_pos i hB
    have h3 : B * (i / B) = i / B * B := mul_comm _ _
    linarith
  have hx1 : j / B * B ≤ j := by
    have h1 := Int.ediv_add_emod j B
    have h2 : 0 ≤ j % B := Int.emod_nonneg j (by omega)
    have h3 : B * (j / B) = j / B * B := mul_comm _ _
    linarith
  have hx2 : j < j / B * B + B := by
    have h1 := Int.ediv_add_emod j B
    have h2 : j % B < B := Int.emod_lt_of_pos j hB
    have h3 : B * (j / B) = j / B * B := mul_comm _ _
    linarith
  unfold apply_strict_majority_filter_batched
  set s := batch_read_start i B with hs
  set t := batch_read_start j B with ht
  set re := batch_read_end i B rows with hre
  set ce := batch_read_end j B cols with hce
  have hsdef : s = max 0 (i / B * B - 4) := by rw [hs, batch_read_start, ho]
  have htdef : t = max 0 (j / B * B - 4) := by rw [ht, batch_read_start, ho]
  have hredef : re = min rows (min (i / B * B + B) rows + 4) := by
    rw [hre, batch_read_end, ho, show (i / B + 1) * B = i / B * B + B by ring]
  have hcedef : ce = min cols (min (j / B * B + B) cols + 4) := by
    rw [hce, batch_read_end, ho, show (j / B + 1) * B = j / B * B + B by ring]
  have hs0 : 0 ≤ s := by omega
  have hsle : s ≤ max 0 (i - half_kernel) := by rw [hk]; omega
  have hsr : min rows (i + half_kernel + 1) ≤ s + (re - s) := by rw [hk]; omega
  have hbr : s + (re - s) ≤ rows := by omega
  have ht0 : 0 ≤ t := by omega
  have htle : t ≤ max 0 (j - half_kernel) := by rw [hk]; omega
  have htc : min cols (j + half_kernel + 1) ≤ t + (ce - t) := by rw [hk]; omega
  have hbc : t + (ce - t) ≤ cols := by omega
  have hv : (fun r c => a (s + r) (t + c)) (i - s) (j - t) = a i j := by
    show a (s + (i - s)) (t + (j - t)) = a i j
    rw [show s + (i - s) = i by ring, show t + (j - t) = j by ring]
  have hw := windowCount_shift a rows cols (re - s) (ce - t) s t i j
    hs0 hsle hsr hbr ht0 htle htc hbc
  unfold apply_strict_majority_filter_numba
  rw [hw, hv]

/-- With the default `min_homogeneity = 0.8` the retention threshold is
`ceil(81 * 0.8) = 65` (line 125). -/
lemma min_required_default : min_required (0.8 : ℚ) = 65 := by
  rw [min_required, kernel_size, Int.ceil_eq_iff]
  norm_num

example : apply_strict_majority_filter_numba (fun _ _ => 3) 9 9 (0.8 : ℚ) 4 4 = 3 := by
  rw [apply_strict_majority_filter_numba, min_required_default]
  decide
example : apply_strict_majority_filter_numba (fun _ _ => 3) 9 9 (0.8 : ℚ) 0 0 = -99 := by
  rw [apply_strict_majority_filter_numba, min_required_default]
  decide

/-- A pixel whose full 9-by-9 window holds one non-background value `v`
keeps its label: the count is the full 81 and `81 ≥ 65`. -/
lemma filter_keeps_uniform_block (a : ℤ → ℤ → ℤ) (rows cols i j v : ℤ)
    (hv : v ≠ -99) (hi4 : 4 ≤ i) (hi5 : i + 5 ≤ rows) (hj4 : 4 ≤ j) (hj5 : j + 5 ≤ cols)
    (hblock : ∀ y x, i - 4 ≤ y → y < i + 5 → j - 4 ≤ x → x < j + 5 → a y x = v) :
    apply_strict_majority_filter_numba a rows cols (0.8 : ℚ) i j = v := by
  have hk : half_kernel = 4 := by decide
  have hcenter : a i j = v := hblock i j (by omega) (by omega) (by omega) (by omega)
  have hcount : windowCount a rows cols i j = 81 := by
    unfold windowCount countSame
    rw [hk, hcenter]
    rw [show max 0 (i - 4) = i - 4 by omega, show min rows (i + 4 + 1) = i + 5 by omega,
        show max 0 (j - 4) = j - 4 by omega, show min cols (j + 4 + 1) = j + 5 by omega]
    rw [Finset.filter_true_of_mem]
    · rw [Finset.card_product, Int.card_Ico, Int.card_Ico,
          show i + 5 - (i - 4) = (9 : ℤ) by ring, show j + 5 - (j - 4) = (9 : ℤ) by ring]
      rfl
    · intro p hp
      simp only [Finset.mem_product, Finset.mem_Ico] at hp
      have := hblock p.1 p.2 hp.1.1 hp.1.2 hp.2.1 hp.2.2
      exact ⟨this, by rw [this]; exact hv⟩
  rw [apply_strict_majority_filter_numba, min_required_default, hcount]
  rw [if_neg (by rw [hcenter]; exact hv), if_pos (by norm_num)]
  exact hcenter

/-- Test input from the spec: a two-class checkerboard at 50/50 density. -/
def checkerboard (c1 c2 : ℤ) (i j : ℤ) : ℤ := if (i + j) % 2 = 0 then c1 else c2

/-- In any window of at most 9-by-9 cells, at most 45 cells of a two-class
checkerboard can carry any one fixed value. -/
lemma checkerboard_countSame_le (c1 c2 v y0 y1 x0 x1 : ℤ) (h12 : c1 ≠ c2)
    (hy : y1 - y0 ≤ 9) (hx : x1 - x0 ≤ 9) :
    countSame (checkerboard c1 c2) v y0 y1 x0 x1 ≤ 45 := by
  unfold countSame
  have hsub : (((Finset.Ico y0 y1) ×ˢ (Finset.Ico x0 x1)).filter
      (fun p => checkerboard c1 c2 p.1 p.2 = v ∧ checkerboard c1 c2 p.1 p.2 ≠ -99)).card
      ≤ ((Finset.Ico y0 y1) ×ˢ (Finset.Ico (0 : ℤ) 5)).card := by
    apply Finset.card_le_card_of_injOn (fun p => (p.1, (p.2 - x0) / 2))
    · intro p hp
      simp only [Finset.mem_filter, Finset.mem_product, Finset.mem_Ico] at hp ⊢
      exact ⟨hp.1.1, by omega, by omega⟩
    · intro p hp q hq hpq
      simp only [Finset.coe_filter, Set.mem_setOf_eq, Finset.mem_product,
        Finset.mem_Ico] at hp hq
      obtain ⟨⟨⟨hpy, hpy'⟩, hpx, hpx'⟩, hpv, _⟩ := hp
      obtain ⟨⟨⟨hqy, hqy'⟩, hqx, hqx'⟩, hqv, _⟩ := hq
      obtain ⟨p1, p2⟩ := p
      obtain ⟨q1, q2⟩ := q
      simp only [Prod.mk.injEq] at hpq ⊢
      obtain ⟨h1, h2⟩ := hpq
      have hpar : (p1 + p2) % 2 = (q1 + q2) % 2 := by
        by_cases hpp : (p1 + p2) % 2 = 0 <;> by_cases hqq : (q1 + q2) % 2 = 0
        · omega
        · exfalso
          rw [checkerboard, if_pos hpp] at hpv
          rw [checkerboard, if_neg hqq] at hqv
          exact h12 (hpv.trans hqv.symm)
        · exfalso
          rw [checkerboard, if_neg hpp] at hpv
          rw [checkerboard, if_pos hqq] at hqv
          exact h12 (hqv.trans hpv.symm)
        · omega
      exact ⟨h1, by omega⟩
  calc (((Finset.Ico y0 y1) ×ˢ (Finset.Ico x0 x1)).filter
      (fun p => checkerboard c1 c2 p.1 p.2 = v ∧ checkerboard c1 c2 p.1 p.2 ≠ -99)).card
      ≤ ((Finset.Ico y0 y1) ×ˢ (Finset.Ico (0 : ℤ) 5)).card := hsub
    _ = (y1 - y0).toNat * 5 := by
        rw [Finset.card_product, Int.card_Ico, Int.card_Ico,
          show ((5 : ℤ) - 0) = 5 by ring]
        rfl
    _ ≤ 45 := by omega

/-- On a two-class checkerboard (classes distinct, neither background) every
pixel of the filtered output is background. -/
lemma filter_clears_checkerboard (c1 c2 rows cols i j : ℤ)
    (h12 : c1 ≠ c2) (h1 : c1 ≠ -99) (h2 : c2 ≠ -99) :
    apply_strict_majority_filter_numba (checkerboard c1 c2) rows cols (0.8 : ℚ) i j = -99 := by
  have hk : half_kernel = 4 := by decide
  have hcb : checkerboard c1 c2 i j ≠ -99 := by
    rw [checkerboard]
    split
    · exact h1
    · exact h2
  have hwc : windowCount (checkerboard c1 c2) rows cols i j ≤ 45 := by
    unfold windowCount
    rw [hk]
    exact checkerboard_countSame_le c1 c2 _ _ _ _ _ h12 (by omega) (by omega)
  rw [apply_strict_majority_filter_numba, min_required_default, if_neg hcb,
    if_neg (by omega)]

/-- C6: with kernel size 9 and `min_homogeneity = 0.8` the retention
threshold is `ceil(81 * 0.8) = 65`; a pixel at the centre of a block of at
least 9-by-9 pixels of one class keeps its label (count 81 ≥ 65); on a
two-class 50/50 checkerboard with no background every output pixel is -99. -/
theorem c6_filter_threshold_block_and_checkerboard :
    min_required (0.8 : ℚ) = 65 ∧
    (∀ (a : ℤ → ℤ → ℤ) (rows cols i j v : ℤ), v ≠ -99 →
      4 ≤ i → i + 5 ≤ rows → 4 ≤ j → j + 5 ≤ cols →
      (∀ y x, i - 4 ≤ y → y < i + 5 → j - 4 ≤ x → x < j + 5 → a y x = v) →
      apply_strict_majority_filter_numba a rows cols (0.8 : ℚ) i j = v) ∧
    (∀ (c1 c2 rows cols i j : ℤ), c1 ≠ c2 → c1 ≠ -99 → c2 ≠ -99 →
      apply_strict_majority_filter_numba (checkerboard c1 c2) rows cols (0.8 : ℚ) i j = -99) :=
  ⟨min_required_default,
   fun a rows cols i j v hv hi4 hi5 hj4 hj5 hb =>
     filter_keeps_uniform_block a rows cols i j v hv hi4 hi5 hj4 hj5 hb,
   fun c1 c2 rows cols i j h12 h1 h2 =>
     filter_clears_checkerboard c1 c2 rows cols i j h12 h1 h2⟩

/-- Witness for C6 at concrete inputs: a uniform 9-by-9 raster of class 2
keeps the centre pixel, and a 0/1 checkerboard clears pixel (0, 0). -/
theorem c6_filter_threshold_block_and_checkerboard_witness :
    apply_strict_majority_filter_numba (fun _ _ => 2) 9 9 (0.8 : ℚ) 4 4 = 2 ∧
    apply_strict_majority_filter_numba (checkerboard 0 1) 3 3 (0.8 : ℚ) 0 0 = -99 :=
  ⟨c6_filter_threshold_block_and_checkerboard.2.1 (fun _ _ => 2) 9 9 4 4 2
      (by decide) (by decide) (by decide) (by decide) (by decide)
      (fun _ _ _ _ _ _ => rfl),
   c6_filter_threshold_block_and_checkerboard.2.2 0 1 3 3 0 0
      (by decide) (by decide) (by decide)⟩

/-- C7: a background input pixel is background in the output of the plain
filter and of the batched filter, for every batch size. -/
theorem c7_filter_background_invariant (a : ℤ → ℤ → ℤ) (rows cols : ℤ)
    (minHomogeneity : ℚ) (B i j : ℤ) (_hB : 0 < B) (hbg : a i j = -99) :
    apply_strict_majority_filter_numba a rows cols minHomogeneity i j = -99 ∧
    apply_strict_majority_filter_batched a rows cols minHomogeneity B i j = -99 := by
  constructor
  · rw [apply_strict_majority_filter_numba, if_pos hbg]
  · rw [apply_strict_majority_filter_batched, apply_strict_majority_filter_numba]
    rw [show batch_read_start i B + (i - batch_read_start i B) = i by ring,
        show batch_read_start j B + (j - batch_read_start j B) = j by ring,
        if_pos hbg]

/-- Witness for C7 on a concrete all-background raster. -/
theorem c7_filter_background_invariant_witness :
    apply_strict_majority_filter_numba (fun _ _ => -99) 4 4 (0.8 : ℚ) 1 1 = -99 ∧
    apply_strict_majority_filter_batched (fun _ _ => -99) 4 4 (0.8 : ℚ) 2048 1 1 = -99 :=
  c7_filter_background_invariant (fun _ _ => -99) 4 4 (0.8 : ℚ) 2048 1 1
    (by decide) rfl

/-- The window count never exceeds the (clipped) window area. -/
lemma windowCount_le_area (a : ℤ → ℤ → ℤ) (rows cols i j : ℤ) :
    windowCount a rows cols i j ≤
      (min rows (i + half_kernel + 1) - max 0 (i - half_kernel)).toNat *
      (min cols (j + half_kernel + 1) - max 0 (j - half_kernel)).toNat := by
  unfold windowCount countSame
  calc (((Finset.Ico (max 0 (i - half_kernel)) (min rows (i + half_kernel + 1))) ×ˢ
        (Finset.Ico (max 0 (j - half_kernel)) (min cols (j + half_kernel + 1)))).filter
        (fun p => a p.1 p.2 = a i j ∧ a p.1 p.2 ≠ -99)).card
      ≤ ((Finset.Ico (max 0 (i - half_kernel)) (min rows (i + half_kernel + 1))) ×ˢ
        (Finset.Ico (max 0 (j - half_kernel)) (min cols (j + half_kernel + 1)))).card :=
        Finset.card_filter_le _ _
    _ = _ := by rw [Finset.card_product, Int.card_Ico, Int.card_Ico]

/-- C10: every non-background pixel within 3 pixels of a raster border is
reset to -99 by `apply_strict_majority_filter_numba` with the default
parameters: its edge-clipped window has at most 7 * 9 = 63 cells, below the
threshold 65. -/
theorem c10_border_pixels_cleared (a : ℤ → ℤ → ℤ) (rows cols i j : ℤ)
    (hi0 : 0 ≤ i) (hir : i < rows) (hj0 : 0 ≤ j) (hjc : j < cols)
    (hfg : a i j ≠ -99)
    (hborder : i < 3 ∨ rows - 3 ≤ i ∨ j < 3 ∨ cols - 3 ≤ j) :
    apply_strict_majority_filter_numba a rows cols (0.8 : ℚ) i j = -99 := by
  have hk : half_kernel = 4 := by decide
  have harea := windowCount_le_area a rows cols i j
  rw [hk] at harea
  have hA9 : (min rows (i + 4 + 1) - max 0 (i - 4)).toNat ≤ 9 := by omega
  have hB9 : (min cols (j + 4 + 1) - max 0 (j - 4)).toNat ≤ 9 := by omega
  have hcnt : windowCount a rows cols i j ≤ 63 := by
    rcases hborder with h | h | h | h
    · have hA : (min rows (i + 4 + 1) - max 0 (i - 4)).toNat ≤ 7 := by omega
      exact le_trans harea (le_trans (Nat.mul_le_mul hA hB9) (by norm_num))
    · have hA : (min rows (i + 4 + 1) - max 0 (i - 4)).toNat ≤ 7 := by omega
      exact le_trans harea (le_trans (Nat.mul_le_mul hA hB9) (by norm_num))
    · have hBc : (min cols (j + 4 + 1) - max 0 (j - 4)).toNat ≤ 7 := by omega
      exact le_trans harea (le_trans (Nat.mul_le_mul hA9 hBc) (by norm_num))
    · have hBc : (min cols (j + 4 + 1) - max 0 (j - 4)).toNat ≤ 7 := by omega
      exact le_trans harea (le_trans (Nat.mul_le_mul hA9 hBc) (by norm_num))
  rw [apply_strict_majority_filter_numba, min_required_default, if_neg hfg,
    if_neg (by omega)]

/-- Witness for C10: on a uniform class-5 raster the border pixel (0, 0)
is cleared. -/
theorem c10_border_pixels_cleared_witness :
    apply_strict_majority_filter_numba (fun _ _ => 5) 20 20 (0.8 : ℚ) 0 0 = -99 :=
  c10_border_pixels_cleared (fun _ _ => 5) 20 20 0 0 (by decide) (by decide)
    (by decide) (by decide) (by decide) (Or.inl (by decide))

/-- C3: for the default parameters (kernel 9, `min_homogeneity = 0.8`) and
batch size 2048, the batched filter (4-pixel overlap, core write-back)
produces exactly the same value at every raster pixel as one whole-raster
application of `apply_strict_majority_filter_numba`. -/
theorem c3_batched_filter_matches_whole_raster (a : ℤ → ℤ → ℤ) (rows cols i j : ℤ)
    (hi0 : 0 ≤ i) (hir : i < rows) (hj0 : 0 ≤ j) (hjc : j < cols) :
    apply_strict_majority_filter_batched a rows cols (0.8 : ℚ) 2048 i j
      = apply_strict_majority_filter_numba a rows cols (0.8 : ℚ) i j :=
  batched_eq_numba a rows cols (0.8 : ℚ) 2048 i j (by norm_num) hi0 hir hj0 hjc

/-- Witness for C3 at a concrete raster and pixel. -/
theorem c3_batched_filter_matches_whole_raster_witness :
    apply_strict_majority_filter_batched (fun r c => r + c) 6 7 (0.8 : ℚ) 2048 2 3
      = apply_strict_majority_filter_numba (fun r c => r + c) 6 7 (0.8 : ℚ) 2 3 :=
  c3_batched_filter_matches_whole_raster (fun r c => r + c) 6 7 2 3
    (by decide) (by decide) (by decide) (by decide)

/-! ## Label mapping and ground-truth remapping
    Source: `extract_patches_alldatasets.py`, lines 33-116. -/

/-- Sorting step `alberta_classes_sorted = sorted(alberta_classes)` (line 36), modelled
with insertion sort (the values are integers, so any correct sort yields the
same list as Python's stable sort). -/
def sorted_classes (cs : List ℤ) : List ℤ := cs.insertionSort (fun a b => a ≤ b)

/-- Dictionary `original_to_new` of `create_alberta_label_mapping`
(lines 39-54) as its list of key/value assignments in insertion order:
`original_to_new[0] = -99` first (line 44), then
`original_to_new[original_class] = new_label` for `new_label, original_class`
in `enumerate(alberta_classes_sorted)` (lines 52-53). -/
def label_mapping_pairs (cs : List ℤ) : List (ℤ × ℤ) :=
  (0, -99) :: (sorted_classes cs).enum.map (fun p => (p.2, (p.1 : ℤ)))

/-- Dictionary lookup: the value of the last assignment whose key is `k`. -/
def dict_get (ps : List (ℤ × ℤ)) (k : ℤ) : Option ℤ :=
  ps.foldl (fun acc kv => if k = kv.1 then some kv.2 else acc) none

/-- The finished `original_to_new` mapping returned by
`create_alberta_label_mapping` (line 70), as a lookup function. -/
def original_to_new (cs : List ℤ) : ℤ → Option ℤ :=
  fun k => dict_get (label_mapping_pairs cs) k

lemma foldl_update_of_forall_ne (ps : List (ℤ × ℤ)) (k : ℤ)
    (h : ∀ kv ∈ ps, kv.1 ≠ k) (acc : Option ℤ) :
    ps.foldl (fun acc kv => if k = kv.1 then some kv.2 else acc) acc = acc := by
  induction ps generalizing acc with
  | nil => rfl
  | cons kv rest ih =>
    rw [List.foldl_cons,
      if_neg (fun he => h kv (List.mem_cons_self kv rest) he.symm)]
    exact ih (fun kv' h' => h kv' (List.mem_cons_of_mem kv h')) acc

lemma foldl_update_of_mem (ps : List (ℤ × ℤ)) (k v : ℤ)
    (hmem : (k, v) ∈ ps) (hnd : (ps.map Prod.fst).Nodup) (acc : Option ℤ) :
    ps.foldl (fun acc kv => if k = kv.1 then some kv.2 else acc) acc = some v := by
  induction ps generalizing acc with
  | nil => cases hmem
  | cons kv rest ih =>
    rw [List.map_cons, List.nodup_cons] at hnd
    rw [List.foldl_cons]
    rcases List.mem_cons.mp hmem with heq | hmem'
    · have hk : kv.1 = k := by rw [← heq]
      have hv2 : kv.2 = v := by rw [← heq]
      rw [if_pos hk.symm, hv2]
      exact foldl_update_of_forall_ne rest k
        (fun kv' h' hk' => hnd.1 (hk ▸ hk' ▸ List.mem_map_of_mem Prod.fst h'))
        (some v)
    · exact ih hmem' hnd.2 _

lemma dict_get_of_mem (ps : List (ℤ × ℤ)) (k v : ℤ)
    (hmem : (k, v) ∈ ps) (hnd : (ps.map Prod.fst).Nodup) :
    dict_get ps k = some v :=
  foldl_update_of_mem ps k v hmem hnd none

lemma sorted_classes_mem (cs : List ℤ) (x : ℤ) :
    x ∈ sorted_classes cs ↔ x ∈ cs :=
  (List.perm_insertionSort (fun a b => a ≤ b) cs).mem_iff

lemma sorted_classes_nodup (cs : List ℤ) (hnd : cs.Nodup) :
    (sorted_classes cs).Nodup :=
  ((List.perm_insertionSort (fun a b => a ≤ b) cs).nodup_iff).mpr hnd

/-- The keys of the `original_to_new` dictionary, in insertion order:
`0` followed by the sorted class codes. -/
lemma label_mapping_keys (cs : List ℤ) :
    (label_mapping_pairs cs).map Prod.fst = 0 :: sorted_classes cs := by
  unfold label_mapping_pairs
  rw [List.map_cons, List.map_map]
  congr 1
  exact List.enum_map_snd (sorted_classes cs)

lemma label_mapping_keys_nodup (cs : List ℤ) (hnd : cs.Nodup) (h0 : (0 : ℤ) ∉ cs) :
    ((label_mapping_pairs cs).map Prod.fst).Nodup := by
  rw [label_mapping_keys]
  exact List.nodup_cons.mpr
    ⟨fun hmem => h0 ((sorted_classes_mem cs 0).mp hmem), sorted_classes_nodup cs hnd⟩

/-- Original code 0 is mapped to the background sentinel -99. -/
lemma dict_get_zero (cs : List ℤ) (h0 : (0 : ℤ) ∉ cs) :
    dict_get (label_mapping_pairs cs) 0 = some (-99) := by
  unfold dict_get label_mapping_pairs
  rw [List.foldl_cons, if_pos rfl]
  apply foldl_update_of_forall_ne
  intro kv hkv hk
  rcases List.mem_map.mp hkv with ⟨p, hp, hpe⟩
  have : p.2 ∈ sorted_classes cs := by
    have := List.enum_map_snd (sorted_classes cs)
    exact this ▸ List.mem_map_of_mem Prod.snd hp
  have hzero : p.2 = 0 := by rw [← hpe] at hk; exact hk
  exact h0 ((sorted_classes_mem cs 0).mp (hzero ▸ this))

/-- The sorted class at index `i` is mapped to new label `i`. -/
lemma dict_get_sorted_index (cs : List ℤ) (hnd : cs.Nodup) (h0 : (0 : ℤ) ∉ cs)
    (i : ℕ) (h : i < (sorted_classes cs).length) :
    dict_get (label_mapping_pairs cs) ((sorted_classes cs).get ⟨i, h⟩) = some (i : ℤ) := by
  apply dict_get_of_mem _ _ _ _ (label_mapping_keys_nodup cs hnd h0)
  unfold label_mapping_pairs
  apply List.mem_cons_of_mem
  apply List.mem_map.mpr
  refine ⟨(i, (sorted_classes cs).get ⟨i, h⟩), ?_, rfl⟩
  have hlen : i < (sorted_classes cs).enum.length := by
    rw [List.enum_length]; exact h
  have : (sorted_classes cs).enum[i] = (i, (sorted_classes cs)[i]) :=
    List.getElem_enum _ _ hlen
  rw [show (sorted_classes cs).get ⟨i, h⟩ = (sorted_classes cs)[i] from rfl, ← this]
  exact List.getElem_mem hlen

lemma sorted_classes_sorted_lt (cs : List ℤ) (hnd : cs.Nodup) :
    List.Sorted (fun a b => a < b) (sorted_classes cs) := by
  have hle : List.Sorted (fun a b => a ≤ b) (sorted_classes cs) :=
    List.sorted_insertionSort (fun a b => a ≤ b) cs
  exact hle.lt_of_le (sorted_classes_nodup cs hnd)

/-- C4: `create_alberta_label_mapping` maps 0 to -99 and the i-th smallest
class code to new label i; new labels are the contiguous integers
`0..|C|-1` assigned in ascending order of original code, and the function
is deterministic. -/
theorem c4_label_mapping_contiguous_deterministic (cs : List ℤ)
    (hnd : cs.Nodup) (h0 : (0 : ℤ) ∉ cs) :
    original_to_new cs 0 = some (-99) ∧
    (∀ i (h : i < (sorted_classes cs).length),
        original_to_new cs ((sorted_classes cs).get ⟨i, h⟩) = some (i : ℤ)) ∧
    (sorted_classes cs).length = cs.length ∧
    List.Sorted (fun a b => a < b) (sorted_classes cs) ∧
    original_to_new cs = original_to_new cs :=
  ⟨dict_get_zero cs h0,
   fun i h => dict_get_sorted_index cs hnd h0 i h,
   (List.perm_insertionSort (fun a b => a ≤ b) cs).length_eq,
   sorted_classes_sorted_lt cs hnd,
   rfl⟩

/-- Witness for C4 on the concrete class set [15, 5, 1]. -/
theorem c4_label_mapping_contiguous_deterministic_witness :
    original_to_new [15, 5, 1] 0 = some (-99) ∧
    original_to_new [15, 5, 1] ((sorted_classes [15, 5, 1]).get ⟨2, by decide⟩) = some 2 :=
  ⟨(c4_label_mapping_contiguous_deterministic [15, 5, 1] (by decide) (by decide)).1,
   (c4_label_mapping_contiguous_deterministic [15, 5, 1] (by decide) (by decide)).2.1
     2 (by decide)⟩

example : original_to_new [15, 5, 1] 15 = some 2 := by decide
example : original_to_new [15, 5, 1] 1 = some 0 := by decide
example : original_to_new [15, 5, 1] 7 = none := by decide

/-- One pixel of `remap_ground_truth` (lines 92-96): the output buffer is
initialised to -99 and then, for every `(original_class, new_label)` item of
the mapping in order, pixels equal to `original_class` are set to
`new_label`. -/
def remap_pixel (ps : List (ℤ × ℤ)) (v : ℤ) : ℤ :=
  ps.foldl (fun acc kv => if v = kv.1 then kv.2 else acc) (-99)

/-- Pixel `(i, j)` of the raster written by `remap_ground_truth`. -/
def remap_ground_truth (ps : List (ℤ × ℤ)) (data : ℤ → ℤ → ℤ) (i j : ℤ) : ℤ :=
  remap_pixel ps (data i j)

lemma remap_foldl_general (ps : List (ℤ × ℤ)) (v : ℤ) :
    ∀ (acc : ℤ) (accO : Option ℤ), acc = accO.getD (-99) →
      ps.foldl (fun acc kv => if v = kv.1 then kv.2 else acc) acc
        = (ps.foldl (fun acc kv => if v = kv.1 then some kv.2 else acc) accO).getD (-99) := by
  induction ps with
  | nil => intro acc accO h; simpa using h
  | cons kv rest ih =>
    intro acc accO h
    rw [List.foldl_cons, List.foldl_cons]
    apply ih
    by_cases hv : v = kv.1
    · rw [if_pos hv, if_pos hv]
      rfl
    · rw [if_neg hv, if_neg hv]
      exact h

/-- A remapped pixel is the dictionary value of its input value when the
value is a key, else the initial background -99. -/
lemma remap_pixel_eq_dict_get (ps : List (ℤ × ℤ)) (v : ℤ) :
    remap_pixel ps v = (dict_get ps v).getD (-99) :=
  remap_foldl_general ps v (-99) none rfl

/-- C5: `remap_ground_truth` writes the mapped new label wherever the input
holds a mapped original code, writes -99 wherever the input holds 0, and
leaves the -99 initialisation wherever the input value is unmapped. -/
theorem c5_remap_ground_truth_correct (cs : List ℤ) (data : ℤ → ℤ → ℤ) (i j : ℤ)
    (h0 : (0 : ℤ) ∉ cs) :
    (∀ c k, dict_get (label_mapping_pairs cs) c = some k → data i j = c →
        remap_ground_truth (label_mapping_pairs cs) data i j = k) ∧
    (data i j = 0 → remap_ground_truth (label_mapping_pairs cs) data i j = -99) ∧
    (dict_get (label_mapping_pairs cs) (data i j) = none →
        remap_ground_truth (label_mapping_pairs cs) data i j = -99) := by
  refine ⟨?_, ?_, ?_⟩
  · intro c k hlook hdata
    rw [remap_ground_truth, hdata, remap_pixel_eq_dict_get, hlook]
    rfl
  · intro hdata
    rw [remap_ground_truth, hdata, remap_pixel_eq_dict_get, dict_get_zero cs h0]
    rfl
  · intro hlook
    rw [remap_ground_truth, remap_pixel_eq_dict_get, hlook]
    rfl

/-- Witness for C5: with classes [15, 5], code 15 is remapped to label 1,
code 0 to -99, and the unmapped code 7 stays at the -99 initialisation. -/
theorem c5_remap_ground_truth_correct_witness :
    remap_ground_truth (label_mapping_pairs [15, 5]) (fun _ _ => 15) 0 0 = 1 ∧
    remap_ground_truth (label_mapping_pairs [15, 5]) (fun _ _ => 0) 0 0 = -99 ∧
    remap_ground_truth (label_mapping_pairs [15, 5]) (fun _ _ => 7) 0 0 = -99 :=
  ⟨(c5_remap_ground_truth_correct [15, 5] (fun _ _ => 15) 0 0 (by decide)).1
      15 1 (by decide) rfl,
   (c5_remap_ground_truth_correct [15, 5] (fun _ _ => 0) 0 0 (by decide)).2.1 rfl,
   (c5_remap_ground_truth_correct [15, 5] (fun _ _ => 7) 0 0 (by decide)).2.2 (by decide)⟩

/-! ## Stratified train/val/test split
    Source: `extract_patches_alldatasets.py`, lines 448-464. -/

lemma floor_mul_07 (n : ℕ) : ⌊(n : ℚ) * 0.7⌋ = 7 * (n : ℤ) / 10 := by
  rw [show (n : ℚ) * 0.7 = ((7 * (n : ℤ) : ℤ) : ℚ) / ((10 : ℕ) : ℚ) by push_cast; ring]
  exact Rat.floor_intCast_div_natCast _ _

lemma floor_mul_015 (n : ℕ) : ⌊(n : ℚ) * 0.15⌋ = 3 * (n : ℤ) / 20 := by
  rw [show (n : ℚ) * 0.15 = ((3 * (n : ℤ) : ℤ) : ℚ) / ((20 : ℕ) : ℚ) by push_cast; ring]
  exact Rat.floor_intCast_div_natCast _ _

/-- Split sizes of `select_and_split_patches_stratified` (lines 449-460):
`n_train = int(n * 0.7)`, `n_val = int(n * 0.15)`,
`n_test = n - n_train - n_val`, then, in order: if `n_test == 0` and
`n >= 3`, move one patch from train to test; if `n_val == 0` and `n >= 2`,
move one patch from train to val.  `int()` truncation of the nonnegative
products is modelled as the rational floor. -/
def split_counts (n : ℕ) : ℤ × ℤ × ℤ :=
  let n_train : ℤ := ⌊(n : ℚ) * 0.7⌋
  let n_val : ℤ := ⌊(n : ℚ) * 0.15⌋
  let n_test : ℤ := (n : ℤ) - n_train - n_val
  let p1 : ℤ × ℤ :=
    if n_test = 0 ∧ 3 ≤ n then (n_train - 1, 1) else (n_train, n_test)
  let p2 : ℤ × ℤ :=
    if n_val = 0 ∧ 2 ≤ n then (p1.1 - 1, 1) else (p1.1, n_val)
  (p2.1, p2.2, p1.2)

/-- The slices `selected[:n_train]`, `selected[n_train:n_train+n_val]`,
`selected[n_train+n_val:]` (lines 462-464).  The counts are nonnegative
(part of the claim theorem below), so Python slicing is take/drop. -/
def split_patches {α : Type} (sel : List α) : List α × List α × List α :=
  ((sel.take (split_counts sel.length).1.toNat),
   ((sel.drop (split_counts sel.length).1.toNat).take (split_counts sel.length).2.1.toNat),
   (sel.drop ((split_counts sel.length).1.toNat + (split_counts sel.length).2.1.toNat)))

lemma split_counts_closed (n : ℕ) :
    split_counts n =
      (if 3 * (n : ℤ) / 20 = 0 ∧ 2 ≤ n then 7 * (n : ℤ) / 10 - 1 else 7 * (n : ℤ) / 10,
       if 3 * (n : ℤ) / 20 = 0 ∧ 2 ≤ n then 1 else 3 * (n : ℤ) / 20,
       (n : ℤ) - 7 * (n : ℤ) / 10 - 3 * (n : ℤ) / 20) := by
  unfold split_counts
  rw [floor_mul_07, floor_mul_015]
  have h1 : ¬((n : ℤ) - 7 * (n : ℤ) / 10 - 3 * (n : ℤ) / 20 = 0 ∧ 3 ≤ n) := by omega
  simp only [h1, if_false, reduceIte]
  split_ifs <;> rfl

example : split_counts 100 = (70, 15, 15) := by rw [split_counts_closed]; norm_num
example : split_counts 2 = (0, 1, 1) := by rw [split_counts_closed]; norm_num
example : split_counts 1 = (0, 0, 1) := by rw [split_counts_closed]; norm_num

/-- C8: the three split slices always partition the selected list (their
lengths sum to `n`); a class with 100 selected patches splits exactly
70/15/15; a class with 2 selected patches splits with val and test both
non-empty and sizes summing to 2. -/
theorem c8_stratified_split_partition {α : Type} (sel : List α) :
    ((split_patches sel).1.length + (split_patches sel).2.1.length
        + (split_patches sel).2.2.length = sel.length) ∧
    (sel.length = 100 →
        (split_patches sel).1.length = 70 ∧ (split_patches sel).2.1.length = 15 ∧
        (split_patches sel).2.2.length = 15) ∧
    (sel.length = 2 →
        (split_patches sel).1.length + (split_patches sel).2.1.length
          + (split_patches sel).2.2.length = 2 ∧
        (split_patches sel).2.1 ≠ [] ∧ (split_patches sel).2.2 ≠ []) := by
  have hl1 : (split_patches sel).1.length
      = min (split_counts sel.length).1.toNat sel.length := by
    unfold split_patches
    rw [List.length_take]
  have hl2 : (split_patches sel).2.1.length
      = min (split_counts sel.length).2.1.toNat
          (sel.length - (split_counts sel.length).1.toNat) := by
    unfold split_patches
    rw [List.length_take, List.length_drop]
  have hl3 : (split_patches sel).2.2.length
      = sel.length - ((split_counts sel.length).1.toNat
          + (split_counts sel.length).2.1.toNat) := by
    unfold split_patches
    rw [List.length_drop]
  have hc := split_counts_closed sel.length
  refine ⟨?_, ?_, ?_⟩
  · rw [hl1, hl2, hl3, hc]
    by_cases h : 3 * (sel.length : ℤ) / 20 = 0 ∧ 2 ≤ sel.length
    · simp only [h, if_true, reduceIte]
      omega
    · simp only [h, if_false, reduceIte]
      omega
  · intro h100
    rw [hl1, hl2, hl3, hc, h100]
    norm_num
    omega
  · intro h2
    refine ⟨?_, ?_, ?_⟩
    · rw [hl1, hl2, hl3, hc, h2]
      norm_num
    · apply List.length_pos.mp
      rw [hl2, hc, h2]
      norm_num
    · apply List.length_pos.mp
      rw [hl3, hc, h2]
      norm_num

/-- Witness for C8 on concrete lists of length 100 and 2. -/
theorem c8_stratified_split_partition_witness :
    (split_patches (List.range 100)).1.length = 70 ∧
    (split_patches (List.range 2)).2.1 ≠ [] :=
  ⟨((c8_stratified_split_partition (List.range 100)).2.1 (by simp)).1,
   ((c8_stratified_split_partition (List.range 2)).2.2 (by simp)).2.1⟩

/-! ## Band stacking
    Source: `stack_clipped_Landsat8_30m_images_03.py` (lines 45-69 and on)
    and `stack_clipped_S2_30m_images_03.py` (lines 49-73 and on). -/

/-- Band list `landsat_bands` (Landsat-8 script, lines 22-29). -/
def landsat_bands : List String :=
  ["SR_B2", "SR_B3", "SR_B4", "SR_B5", "SR_B6", "SR_B7"]

/-- Band list `sentinel_bands` (Sentinel-2 script, lines 22-33). -/
def sentinel_bands : List String :=
  ["B2", "B3", "B4", "B8", "B5", "B6", "B7", "B8A", "B11", "B12"]

/-- Observable outcome of one run of a stacking function: the returned
success flag, the enumerated missing-band list printed on the failure path,
and whether the temporary VRT and the stacked output file were created. -/
structure StackOutcome where
  success : Bool
  missing_bands : List String
  vrt_written : Bool
  output_written : Bool
  deriving DecidableEq

/-- Control flow common to `stack_landsat_bands` and
`stack_sentinel2_bands`: scan the expected band list against the existing
files, collecting `band_files` and `missing_bands`; if any band is missing,
print the enumerated missing list and return `False` before any write; if
the found count differs from the expected count, return `False`; only then
build the VRT and translate it to the stacked GeoTIFF (external library
success is modelled by the oracles `vrt_ok` / `translate_ok`). -/
def stack_bands (bands : List String) (expected : ℕ)
    (file_exists : String → Bool) (vrt_ok translate_ok : Bool) : StackOutcome :=
  let missing := bands.filter (fun b => !(file_exists b))
  let found := bands.filter (fun b => file_exists b)
  if missing ≠ [] then ⟨false, missing, false, false⟩
  else if found.length ≠ expected then ⟨false, missing, false, false⟩
  else if !vrt_ok then ⟨false, missing, false, false⟩
  else if !translate_ok then ⟨false, missing, true, false⟩
  else ⟨true, missing, true, true⟩

/-- Function `stack_landsat_bands` checks all 6 Landsat-8 bands. -/
def stack_landsat_bands (file_exists : String → Bool) (vrt_ok translate_ok : Bool) :
    StackOutcome :=
  stack_bands landsat_bands 6 file_exists vrt_ok translate_ok

/-- Function `stack_sentinel2_bands` checks all 10 Sentinel-2 bands. -/
def stack_sentinel2_bands (file_exists : String → Bool) (vrt_ok translate_ok : Bool) :
    StackOutcome :=
  stack_bands sentinel_bands 10 file_exists vrt_ok translate_ok

lemma stack_bands_missing (bands : List String) (expected : ℕ)
    (file_exists : String → Bool) (vrt_ok translate_ok : Bool)
    (hmiss : ∃ b ∈ bands, file_exists b = false) :
    stack_bands bands expected file_exists vrt_ok translate_ok
      = ⟨false, bands.filter (fun b => !(file_exists b)), false, false⟩ := by
  obtain ⟨b, hb, hfe⟩ := hmiss
  have hne : bands.filter (fun b => !(file_exists b)) ≠ [] := by
    intro hnil
    have : b ∈ bands.filter (fun b => !(file_exists b)) :=
      List.mem_filter.mpr ⟨hb, by rw [hfe]; rfl⟩
    rw [hnil] at this
    cases this
  unfold stack_bands
  rw [if_pos hne]

/-- C9: with any expected band file missing, both stacking scripts return
failure with the enumerated missing-band list and create neither the
temporary VRT nor the stacked output; the expected counts are 6 bands for
Landsat-8 and 10 for Sentinel-2. -/
theorem c9_stacking_aborts_on_missing_band
    (file_exists : String → Bool) (vrt_ok translate_ok : Bool) :
    landsat_bands.length = 6 ∧ sentinel_bands.length = 10 ∧
    ((∃ b ∈ landsat_bands, file_exists b = false) →
      (stack_landsat_bands file_exists vrt_ok translate_ok).success = false ∧
      (stack_landsat_bands file_exists vrt_ok translate_ok).missing_bands
        = landsat_bands.filter (fun b => !(file_exists b)) ∧
      (stack_landsat_bands file_exists vrt_ok translate_ok).vrt_written = false ∧
      (stack_landsat_bands file_exists vrt_ok translate_ok).output_written = false) ∧
    ((∃ b ∈ sentinel_bands, file_exists b = false) →
      (stack_sentinel2_bands file_exists vrt_ok translate_ok).success = false ∧
      (stack_sentinel2_bands file_exists vrt_ok translate_ok).missing_bands
        = sentinel_bands.filter (fun b => !(file_exists b)) ∧
      (stack_sentinel2_bands file_exists vrt_ok translate_ok).vrt_written = false ∧
      (stack_sentinel2_bands file_exists vrt_ok translate_ok).output_written = false) := by
  refine ⟨rfl, rfl, ?_, ?_⟩
  · intro hmiss
    rw [stack_landsat_bands, stack_bands_missing landsat_bands 6 file_exists
      vrt_ok translate_ok hmiss]
    exact ⟨rfl, rfl, rfl, rfl⟩
  · intro hmiss
    rw [stack_sentinel2_bands, stack_bands_missing sentinel_bands 10 file_exists
      vrt_ok translate_ok hmiss]
    exact ⟨rfl, rfl, rfl, rfl⟩

/-- Witness for C9: no clipped band file exists at all. -/
theorem c9_stacking_aborts_on_missing_band_witness :
    (stack_landsat_bands (fun _ => false) true true).output_written = false ∧
    (stack_sentinel2_bands (fun _ => false) true true).vrt_written = false :=
  ⟨((c9_stacking_aborts_on_missing_band (fun _ => false) true true).2.2.1
      ⟨"SR_B2", by decide, rfl⟩).2.2.2,
   ((c9_stacking_aborts_on_missing_band (fun _ => false) true true).2.2.2
      ⟨"B2", by decide, rfl⟩).2.2.1⟩

/-! ## Cross-sensor patch geolocation
    Source: `extract_patches_alldatasets.py`, lines 525-667. -/

/-- A 6-coefficient affine geotransform, as returned by GetGeoTransform.
The coefficient values are real numbers; they are modelled as rationals. -/
structure Geotransform where
  g0 : ℚ
  g1 : ℚ
  g2 : ℚ
  g3 : ℚ
  g4 : ℚ
  g5 : ℚ
  deriving DecidableEq

/-- Pixel offset at which `extract_patches_for_sensor` reads every band of
the sensor raster for patch `(i, j)`: `x_offset = j * stride`,
`y_offset = i * stride` (lines 545-546, 561). -/
def sensor_patch_offset (stride i j : ℤ) : ℤ × ℤ := (j * stride, i * stride)

/-- Pixel offset at which `extract_label_patches` reads the filtered and the
unfiltered label rasters for patch `(i, j)` (lines 628-636): both label
reads use this one offset. -/
def label_patch_offset (stride i j : ℤ) : ℤ × ℤ := (j * stride, i * stride)

/-- Geotransform `patch_gt` written into the sensor image patch (lines 575-580), built
from the sensor raster's geotransform. -/
def sensor_patch_gt (gt : Geotransform) (stride i j : ℤ) : Geotransform :=
  ⟨gt.g0 + (j * stride) * gt.g1, gt.g1, gt.g2,
   gt.g3 + (i * stride) * gt.g5, gt.g4, gt.g5⟩

/-- Geotransform `patch_gt` written into both the filtered and the unfiltered label patch
(lines 643-648), built from the filtered land-cover raster's geotransform
(line 613); one value is passed to both save calls (lines 654-661). -/
def label_patch_gt (gt : Geotransform) (stride i j : ℤ) : Geotransform :=
  ⟨gt.g0 + (j * stride) * gt.g1, gt.g1, gt.g2,
   gt.g3 + (i * stride) * gt.g5, gt.g4, gt.g5⟩

/-- C2: for a patch location `(i, j)`, every sensor and both label rasters
are read at the one offset `(j * stride, i * stride)`, and when the sensor
rasters carry the same geotransform as the land-cover raster (the pre-flight
verification of lines 796-852 compares them against the same reference),
the geotransform written into every sensor patch and into both label
patches is identical, with origin
`(gt0 + x * gt1, gt3 + y * gt5)` for `x = j * stride`, `y = i * stride`. -/
theorem c2_cross_sensor_geolocation_identity
    (sensor_gts : List Geotransform) (lc_gt : Geotransform) (stride i j : ℤ)
    (haligned : ∀ g ∈ sensor_gts, g = lc_gt) :
    (∀ g ∈ sensor_gts,
      sensor_patch_offset stride i j = label_patch_offset stride i j ∧
      sensor_patch_gt g stride i j = label_patch_gt lc_gt stride i j) ∧
    (label_patch_gt lc_gt stride i j).g0
      = lc_gt.g0 + ((j * stride : ℤ) : ℚ) * lc_gt.g1 ∧
    (label_patch_gt lc_gt stride i j).g3
      = lc_gt.g3 + ((i * stride : ℤ) : ℚ) * lc_gt.g5 := by
  refine ⟨?_, by unfold label_patch_gt; push_cast; ring, by unfold label_patch_gt; push_cast; ring⟩
  intro g hg
  rw [haligned g hg]
  exact ⟨rfl, rfl⟩

/-- Witness for C2 with two sensors sharing the land-cover geotransform. -/
theorem c2_cross_sensor_geolocation_identity_witness :
    sensor_patch_gt ⟨0, 30, 0, 100, 0, -30⟩ 204 1 2
      = label_patch_gt ⟨0, 30, 0, 100, 0, -30⟩ 204 1 2 :=
  ((c2_cross_sensor_geolocation_identity
      [⟨0, 30, 0, 100, 0, -30⟩, ⟨0, 30, 0, 100, 0, -30⟩]
      ⟨0, 30, 0, 100, 0, -30⟩ 204 1 2
      (by
        intro g hg
        simp only [List.mem_cons, List.not_mem_nil, or_false] at hg
        rcases hg with h | h <;> exact h)).1
    ⟨0, 30, 0, 100, 0, -30⟩ (List.mem_cons_self _ _)).2

/-! ## Abundance maps
    Source: `extract_patches_alldatasets.py`, lines 240-375. -/

/-- Count `np.sum(window == class_id)` over a rectangle (line 270). -/
def countEq (a : ℤ → ℤ → ℤ) (v y0 y1 x0 x1 : ℤ) : ℕ :=
  (((Finset.Ico y0 y1) ×ˢ (Finset.Ico x0 x1)).filter (fun p => a p.1 p.2 = v)).card

/-- Abundance-grid dimension (lines 289-293):
`stride = window - overlap`, `max_valid = max 0 (len - window)`,
`out = max 1 (max_valid // stride + 1)`. -/
def abundance_out_dim (len window stride : ℤ) : ℤ :=
  max 1 (max 0 (len - window) / stride + 1)

/-- Contribution of one batch to abundance cell `(i, j)` as computed by
`calculate_abundance_batch_numba` (lines 240-272).  The batch spans raster
rows `[bsy, bsy + lc_rows)` and columns `[bsx, bsx + lc_cols)` and `lc` is
the batch array re-indexed from 0.  Cells outside
`[max 0 (bsy // stride), min out_rows ((bsy + lc_rows) // stride + 1))`
(and the analogous column range, lines 247-250) receive nothing; inside, the
window is clipped to the batch (lines 257-266) and pixels equal to
`class_id` are counted when the clipped window is non-empty (lines 268-270). -/
def calculate_abundance_batch_numba
    (lc : ℤ → ℤ → ℤ) (lc_rows lc_cols class_id window stride bsy bsx
     out_rows out_cols i j : ℤ) : ℤ :=
  if max 0 (bsy / stride) ≤ i ∧ i < min out_rows ((bsy + lc_rows) / stride + 1) ∧
     max 0 (bsx / stride) ≤ j ∧ j < min out_cols ((bsx + lc_cols) / stride + 1) then
    (if max 0 (i * stride - bsy)
          < min lc_rows (min (i * stride + window) (bsy + lc_rows) - bsy) ∧
        max 0 (j * stride - bsx)
          < min lc_cols (min (j * stride + window) (bsx + lc_cols) - bsx) then
      (countEq lc class_id
        (max 0 (i * stride - bsy))
        (min lc_rows (min (i * stride + window) (bsy + lc_rows) - bsy))
        (max 0 (j * stride - bsx))
        (min lc_cols (min (j * stride + window) (bsx + lc_cols) - bsx)) : ℤ)
    else 0)
  else 0

/-- Cell `(i, j)` of the abundance raster for `class_id` written by
`create_abundance_maps_batched` (lines 342-367): the full grid is
zero-initialised and, for every batch of the `ceil(rows/B) * ceil(cols/B)`
batch grid, the batch's partial abundance is accumulated (the write guard
`end_i <= out_rows and end_j <= out_cols` of line 366 is kept). -/
def create_abundance_maps_batched
    (a : ℤ → ℤ → ℤ) (rows cols class_id window stride B i j : ℤ) : ℤ :=
  ∑ p ∈ Finset.Ico (0 : ℤ) ((rows + B - 1) / B) ×ˢ
        Finset.Ico (0 : ℤ) ((cols + B - 1) / B),
    (if min (abundance_out_dim rows window stride)
          ((p.1 * B + (min ((p.1 + 1) * B) rows - p.1 * B)) / stride + 1)
          ≤ abundance_out_dim rows window stride ∧
        min (abundance_out_dim cols window stride)
          ((p.2 * B + (min ((p.2 + 1) * B) cols - p.2 * B)) / stride + 1)
          ≤ abundance_out_dim cols window stride then
      calculate_abundance_batch_numba
        (fun r c => a (p.1 * B + r) (p.2 * B + c))
        (min ((p.1 + 1) * B) rows - p.1 * B) (min ((p.2 + 1) * B) cols - p.2 * B)
        class_id window stride (p.1 * B) (p.2 * B)
        (abundance_out_dim rows window stride) (abundance_out_dim cols window stride)
        i j
    else 0)

/-- The value the claim asserts for abundance cell `(i, j)`: the number of
raster pixels equal to `class_id` inside the window of side `window` whose
top-left pixel is `(i * stride, j * stride)`. -/
def claimed_window_count
    (a : ℤ → ℤ → ℤ) (rows cols class_id window stride i j : ℤ) : ℤ :=
  (countEq a class_id
    (i * stride) (min (i * stride + window) rows)
    (j * stride) (min (j * stride + window) cols) : ℤ)

example : abundance_out_dim 2060 224 204 = 10 := by decide
example : (2060 + 2048 - 1) / 2048 = (2 : ℤ) := by decide

/-- C1 (refuted; code bug): take the constant class-1 raster with 2060 rows
and 1 column, `window_size = 224`, `overlap = 20` (so `stride = 204`) and
`batch_size = 2048`.  The abundance grid is 10 x 1 and window `i = 9` has
top-left pixel `(9 * 204, 0) = (1836, 0)`, so all 224 of its raster pixels
hold class 1 and the claimed cell value is 224.  The batched code instead
accumulates 212: the first batch (rows 0..2047) contributes rows
1836..2047, and the second batch (rows 2048..2059) starts its cell loop at
`start_i = max(0, 2048 // 204) = 10`, so the 12 rows 2048..2059 of window
9 are never counted.  A single batch covering the whole raster
(`batch_size = 4096`) does yield 224, confirming the loss happens at the
batch seam. -/
theorem c1_batched_abundance_undercounts :
    create_abundance_maps_batched (fun _ _ => 1) 2060 1 1 224 204 2048 9 0 = 212 ∧
    claimed_window_count (fun _ _ => 1) 2060 1 1 224 204 9 0 = 224 ∧
    create_abundance_maps_batched (fun _ _ => 1) 2060 1 1 224 204 2048 9 0
      ≠ claimed_window_count (fun _ _ => 1) 2060 1 1 224 204 9 0 ∧
    create_abundance_maps_batched (fun _ _ => 1) 2060 1 1 224 204 4096 9 0 = 224 := by
  refine ⟨?_, ?_, ?_, ?_⟩
  · set_option maxRecDepth 4000 in decide
  · set_option maxRecDepth 4000 in decide
  · set_option maxRecDepth 4000 in decide
  · set_option maxRecDepth 4000 in decide
